import Mathlib

/- Shallow embedding of the jamaro-cup registration server
(src/server.js together with the Sequelize model src/models/entry.js).

Modelling conventions:
 * Strings are Lean String values.  A JS field that may be undefined or
   null is modelled as the empty string "", because the server only ever
   inspects such fields through JS truthiness, and "", null and undefined
   are all falsy.
 * File bytes are List Nat.
 * The SHA-256 digest (sha256File) is modelled as a function parameter
   hash : List Nat -> String.  The server only relies on the digest being
   a deterministic function of the byte content, which holds for every
   Lean function.
 * The Postgres store is a List Entry, the uploads directory a list of
   (file name, byte content) pairs.  Sequelize findOne / findByPk / update
   become List.find? and List.map on that list.
 * The Nodemailer transporter is modelled by a Bool parameter (delivery
   succeeded or failed); the server swallows the failure in both cases. -/

/-! JS string primitives used by server.js -/

/-- Code points matched by the JS regex whitespace class (backslash s). -/
def jsSpaceCodes : List Nat :=
  [9, 10, 11, 12, 13, 32, 160, 5760,
   8192, 8193, 8194, 8195, 8196, 8197, 8198, 8199, 8200, 8201, 8202,
   8232, 8233, 8239, 8287, 12288, 65279]

/-- Whether a character belongs to the JS regex whitespace class. -/
def jsSpace (c : Char) : Bool := c.toNat ∈ jsSpaceCodes

/-- JS regex word character (the backslash w class): ASCII upper-case
letters (codes 65 to 90), lower-case letters (97 to 122), digits (48 to
57) and underscore (95).  Word boundaries in the regexes of server.js
are defined with respect to this class. -/
def isWordChar (c : Char) : Bool :=
  (65 ≤ c.toNat && c.toNat ≤ 90) || (97 ≤ c.toNat && c.toNat ≤ 122)
    || (48 ≤ c.toNat && c.toNat ≤ 57) || c.toNat = 95

/-- JS String.prototype.trim on a character list: drop whitespace from
both ends. -/
def jsTrimL (l : List Char) : List Char :=
  ((l.dropWhile jsSpace).reverse.dropWhile jsSpace).reverse

/-- JS String.prototype.trim. -/
def jsTrim (s : String) : String := String.mk (jsTrimL s.data)

/-- The global replace of every maximal whitespace run by a single space,
that is the JS call replace with pattern backslash s plus and
replacement a single space.  The Bool flag records whether the previous
character was whitespace (in which case the current run has already
emitted its single space). -/
def collapseAux : Bool → List Char → List Char
  | _, [] => []
  | prevSp, c :: cs =>
    if jsSpace c then
      (if prevSp then collapseAux true cs else ' ' :: collapseAux true cs)
    else c :: collapseAux false cs

/-- Collapse whitespace runs, starting outside a run. -/
def collapseL (l : List Char) : List Char := collapseAux false l

/-- Whether a list does not start with whitespace (so that a left trim
leaves it unchanged). -/
def headOk : List Char → Bool
  | [] => true
  | c :: _ => !jsSpace c

/-- Whether a list is a fixed point of the whitespace collapse: every
whitespace character in it is a single space not preceded (in the state
encoded by the flag) by another whitespace character. -/
def colFix : Bool → List Char → Bool
  | _, [] => true
  | b, c :: cs => if jsSpace c then (!b && (c == ' ')) && colFix true cs else colFix false cs

/-- JS String.prototype.split on the single character slash, on character
lists.  The accumulator holds the current piece reversed. -/
def splitSlashAux (cur : List Char) : List Char → List (List Char)
  | [] => [cur.reverse]
  | c :: cs => if c = '/' then cur.reverse :: splitSlashAux [] cs else splitSlashAux (c :: cur) cs

/-- JS split on the slash character. -/
def splitSlash (s : String) : List String := (splitSlashAux [] s.data).map String.mk

/-- Index of the last dot in a character list, if any. -/
def lastDotIdx (l : List Char) : Option Nat :=
  (l.foldl (fun (st : Nat × Option Nat) c =>
    (st.1 + 1, if c = '.' then some st.1 else st.2)) (0, none)).2

/-- Node path.extname: the substring of the basename from its last dot to
the end; empty when there is no dot or when the only dot is the leading
character of the basename (dotfiles have no extension). -/
def jsExtname (name : String) : String :=
  let base := ((splitSlash name).getLastD "").data
  match lastDotIdx base with
  | none => ""
  | some 0 => ""
  | some i => String.mk (base.drop i)

/-- JS String.prototype.toLowerCase restricted to ASCII, applied
characterwise (every character the server lower-cases is ASCII). -/
def jsToLower (s : String) : String := String.mk (s.data.map Char.toLower)

/-! KitLabelNormalizer: normalizeKit from src/server.js lines 46 to 55.

The two global token replaces use regexes of the shape word-boundary,
alternation of alphabetic tokens, word-boundary.  Such a regex matches
exactly the maximal word-character runs whose text equals one of the
tokens up to ASCII case: a match must start at a word boundary (the start
of a maximal run), every token is made of word characters, and the
trailing word boundary forces the run to end exactly where the token
ends.  The greedy counted group g repeated one to three times contributes
the tokens g, gg and ggg.  The alternation order never matters because
the matched text is always the whole run.  The passes below therefore
decompose the string into maximal word runs and rewrite the runs whose
lower-cased text equals a token. -/

/-- Maximal word-run decomposition: apply f to every maximal run of word
characters, keep every other character.  The accumulator holds the
current run reversed.  Used only with f such that f of nil is nil (both
replacement passes satisfy this). -/
def mapRunsAux (f : List Char → List Char) : List Char → List Char → List Char
  | acc, [] => f acc.reverse
  | acc, c :: cs =>
    if isWordChar c then mapRunsAux f (c :: acc) cs
    else f acc.reverse ++ c :: mapRunsAux f [] cs

/-- Apply f to every maximal word-character run of l. -/
def mapRuns (f : List Char → List Char) (l : List Char) : List Char :=
  mapRunsAux f [] l

/-- Size tokens of the first replace: pp, p, m, g repeated once to three
times, xg, xxg (matched case-insensitively). -/
def sizeToks : List (List Char) :=
  [['p', 'p'], ['p'], ['m'], ['g'], ['g', 'g'], ['g', 'g', 'g'],
   ['x', 'g'], ['x', 'x', 'g']]

/-- Gender and age tokens of the second replace. -/
def genderToks : List (List Char) :=
  ["masculino".data, "feminino".data, "unissex".data, "adulto".data, "infantil".data]

/-- Replacement of the first token replace: upper-case the matched run. -/
def sizeRepl (r : List Char) : List Char :=
  if r.map Char.toLower ∈ sizeToks then r.map Char.toUpper else r

/-- The JS replacement w.charAt(0).toUpperCase() + w.slice(1).toLowerCase(). -/
def capWord (r : List Char) : List Char :=
  match r with
  | [] => []
  | c :: cs => c.toUpper :: cs.map Char.toLower

/-- Replacement of the second token replace: title-case the matched run. -/
def genderRepl (r : List Char) : List Char :=
  if r.map Char.toLower ∈ genderToks then capWord r else r

/-- A word boundary sits between the previous character and this list:
true when the list is empty or starts with a non word character (the
character before the boundary is always a word character here). -/
def boundaryAfter : List Char → Bool
  | [] => true
  | c :: _ => !isWordChar c

/-- The test of the anchored case-insensitive regex kit after a word
boundary: the string starts with the three letters k i t up to case,
followed by a word boundary. -/
def startsKitB : List Char → Bool
  | k :: i :: t :: rest =>
    k.toLower = 'k' && i.toLower = 'i' && t.toLower = 't' && boundaryAfter rest
  | _ => false

/-- The final anchored replace of the kit prefix by the literal Kit. -/
def fixKitL (l : List Char) : List Char :=
  if startsKitB l then 'K' :: 'i' :: 't' :: l.drop 3 else l

/-- Pipeline of normalizeKit after the falsy test, on character lists:
trim, collapse whitespace, prepend Kit when missing, upper-case size
tokens, title-case gender tokens, re-case the leading kit. -/
def normCore (l : List Char) : List Char :=
  let u := collapseL (jsTrimL l)
  let p := if startsKitB u then u else "Kit ".data ++ u
  fixKitL (mapRuns genderRepl (mapRuns sizeRepl p))

/-- KitLabelNormalizer, the function normalizeKit of src/server.js.  A
falsy (empty) input yields the empty string. -/
def normalizeKit (str : String) : String :=
  if str = "" then "" else String.mk (normCore str.data)

/-! CompletenessScorer: computeScore from src/server.js lines 58 to 70. -/

/-- The mapped form fields handed to computeScore and Entry.create
(entryLike in the submit handler).  String fields model JS strings or
undefined, with "" for the falsy values. -/
structure EntryLike where
  athlete1_name : String
  athlete1_phone : String
  athlete1_email : String
  athlete1_cep : String
  athlete1_city : String
  athlete1_kit : String
  athlete2_name : String
  athlete2_phone : String
  athlete2_email : String
  athlete2_cep : String
  athlete2_city : String
  athlete2_kit : String
  duo_name : String
  duo_category : String
  duo_instagram : String
  consent : Bool
deriving DecidableEq, Repr

/-- The accepted extension list of computeScore. -/
def goodExtList : List String := [".pdf", ".jpg", ".jpeg", ".png", ".webp"]

/-- computeScore: the source starts a score variable at 50 and mutates
it once per guard (each conditional increment of the source is one
guarded summand below, in source order: goodExt, both emails, both kits,
duo name, duo category, duo instagram, then minus 20 without consent),
finally clamping with Math.max 0 (Math.min 100 score).  JS truthiness of
a string field is the test against "". -/
def computeScore (entryLike : EntryLike) (fileExtLower : String) : Int :=
  max 0 (min 100 (50
    + (if fileExtLower ∈ goodExtList then 10 else 0)
    + (if entryLike.athlete1_email ≠ "" ∧ entryLike.athlete2_email ≠ "" then 10 else 0)
    + (if entryLike.athlete1_kit ≠ "" ∧ entryLike.athlete2_kit ≠ "" then 10 else 0)
    + (if entryLike.duo_name ≠ "" then 10 else 0)
    + (if entryLike.duo_category ≠ "" then 10 else 0)
    + (if entryLike.duo_instagram ≠ "" then 5 else 0)
    - (if entryLike.consent = false then 20 else 0)))

/-- Modelled from the spec, section 4.3 CompletenessScorer: start at base
50, add 10 for an accepted file extension, 10 if both athletes have an
email, 10 if both athletes have a kit selection, 10 for a duo name, 10
for a duo category, 5 for a duo Instagram handle, subtract 20 if consent
was not given, clamp to the interval from 0 to 100. -/
def scoreSpec (e : EntryLike) (ext : String) : Int :=
  max 0 (min 100 (50
    + (if ext ∈ goodExtList then 10 else 0)
    + (if e.athlete1_email ≠ "" ∧ e.athlete2_email ≠ "" then 10 else 0)
    + (if e.athlete1_kit ≠ "" ∧ e.athlete2_kit ≠ "" then 10 else 0)
    + (if e.duo_name ≠ "" then 10 else 0)
    + (if e.duo_category ≠ "" then 10 else 0)
    + (if e.duo_instagram ≠ "" then 5 else 0)
    - (if e.consent = false then 20 else 0)))

/-! Data model: the Entry row (src/models/entry.js) as created by the
submit handler.  The columns athlete1_kit_gender and athlete2_kit_gender
read by the admin aggregation loop do not exist in the model, so those
reads always yield undefined; the aggregation functions below therefore
receive "" for them. -/

structure Entry where
  id : String
  submittedAt : Nat
  athlete1_name : String
  athlete1_phone : String
  athlete1_email : String
  athlete1_city : String
  athlete1_kit : String
  athlete2_name : String
  athlete2_phone : String
  athlete2_email : String
  athlete2_city : String
  athlete2_kit : String
  duo_name : String
  duo_category : String
  duo_instagram : String
  consent : Bool
  uniforms : String
  paymentProof : String
  paymentProofUrl : String
  fileHash : String
  status : String
  validation_ok : Option Bool
  validation_score : Int
  validation_mime : String
  validation_textSample : Option String
deriving DecidableEq, Repr

/-! IntakePipeline: the submit handler, src/server.js lines 128 to 212. -/

/-- The multer upload handle: original client file name, generated
temporary storage name, declared MIME type, byte content. -/
structure UploadedFile where
  originalname : String
  filename : String
  mimetype : String
  content : List Nat
deriving DecidableEq, Repr

/-- The urlencoded form body.  Field names follow the external form keys
read by the handler (entry.857165334 and so on); the fixed lookup table
from those keys to semantic names is the entryLike construction below. -/
structure FormBody where
  entry857165334 : String
  entry222222222 : String
  entry444444444 : String
  entryCep1 : String
  city1 : String
  entryKit1 : String
  entry949098972 : String
  entry333333333 : String
  entry555555555 : String
  entryCep2 : String
  city2 : String
  entryKit2 : String
  entry111111111 : String
  entry666666666 : String
  entry622151674 : String
  acceptTerms : String
deriving DecidableEq, Repr

/-- The entryLike object built from the body: the fixed mapping from
external form keys to semantic fields; consent is the truthiness of
acceptTerms. -/
def buildEntryLike (b : FormBody) : EntryLike :=
  { athlete1_name := b.entry857165334
    athlete1_phone := b.entry222222222
    athlete1_email := b.entry444444444
    athlete1_cep := b.entryCep1
    athlete1_city := b.city1
    athlete1_kit := b.entryKit1
    athlete2_name := b.entry949098972
    athlete2_phone := b.entry333333333
    athlete2_email := b.entry555555555
    athlete2_cep := b.entryCep2
    athlete2_city := b.city2
    athlete2_kit := b.entryKit2
    duo_name := b.entry111111111
    duo_category := b.entry666666666
    duo_instagram := b.entry622151674
    consent := b.acceptTerms ≠ "" }

/-- The record passed to Entry.create by the submit handler.  Note the
legacy uniforms string is always written, as kit1, space slash space,
kit2, and the cep fields of entryLike are dropped. -/
def buildEntry (freshId : String) (now : Nat) (b : FormBody)
    (finalName fileHash mimetype : String) (score : Int) : Entry :=
  let eL := buildEntryLike b
  { id := freshId
    submittedAt := now
    athlete1_name := eL.athlete1_name
    athlete1_phone := eL.athlete1_phone
    athlete1_email := eL.athlete1_email
    athlete1_city := eL.athlete1_city
    athlete1_kit := eL.athlete1_kit
    athlete2_name := eL.athlete2_name
    athlete2_phone := eL.athlete2_phone
    athlete2_email := eL.athlete2_email
    athlete2_city := eL.athlete2_city
    athlete2_kit := eL.athlete2_kit
    duo_name := eL.duo_name
    duo_category := eL.duo_category
    duo_instagram := eL.duo_instagram
    consent := eL.consent
    uniforms := b.entryKit1 ++ " / " ++ b.entryKit2
    paymentProof := finalName
    paymentProofUrl := "/uploads/" ++ finalName
    fileHash := fileHash
    status := "pending_review"
    validation_ok := none
    validation_score := score
    validation_mime := mimetype
    validation_textSample := none }

/-- Server state visible to the submit handler: the entries table and the
uploads directory (file name with its bytes). -/
structure ServerState where
  entries : List Entry
  uploads : List (String × List Nat)
deriving DecidableEq, Repr

/-- Outcome of the submit handler: HTTP 400 without a file, HTTP 409 on a
duplicate fingerprint, redirect to the thank-you page on success. -/
inductive SubmitResult where
  | missingProof
  | duplicateProof
  | redirectObrigado
deriving DecidableEq, Repr

/-- The submit handler.  hash models sha256File, freshId the generated
uuid primary key, now the Date at creation.  Steps in source order:
require a file; rename it to its permanent name (temporary name plus
lower-cased original extension), which keeps the file on disk in every
later branch; fingerprint the stored bytes; abort 409 when an entry with
that fingerprint exists; otherwise map the body, score it and insert the
new row. -/
def submit (hash : List Nat → String) (freshId : String) (now : Nat)
    (st : ServerState) (file? : Option UploadedFile) (b : FormBody) :
    SubmitResult × ServerState :=
  match file? with
  | none => (SubmitResult.missingProof, st)
  | some f =>
    let extLower := jsToLower (jsExtname f.originalname)
    let finalName := f.filename ++ extLower
    let st1 : ServerState := { st with uploads := st.uploads ++ [(finalName, f.content)] }
    let fileHash := hash f.content
    match st1.entries.find? (fun e => e.fileHash == fileHash) with
    | some _ => (SubmitResult.duplicateProof, st1)
    | none =>
      let score := computeScore (buildEntryLike b) extLower
      let newEntry := buildEntry freshId now b finalName fileHash f.mimetype score
      (SubmitResult.redirectObrigado, { st1 with entries := st1.entries ++ [newEntry] })

/-! UniformAggregator: the two aggregation loops of src/server.js, the
admin page loop at lines 245 to 266 and the export loop at lines 292 to
306.  The JS object uniformTotals is modelled as an association list in
insertion order. -/

/-- Increment the count stored under a key, appending the key with count
one when absent (JS object increment in insertion order). -/
def bump (m : List (String × Nat)) (key : String) : List (String × Nat) :=
  match m with
  | [] => [(key, 1)]
  | (k, n) :: rest => if k = key then (k, n + 1) :: rest else (k, n) :: bump rest key

/-- Count stored under a key, zero when absent. -/
def lookupCount (m : List (String × Nat)) (key : String) : Nat :=
  ((m.find? (fun p => p.1 == key)).map Prod.snd).getD 0

/-- JS array join with a single space separator. -/
def joinSpace : List String → String
  | [] => ""
  | [s] => s
  | s :: rest => s ++ " " ++ joinSpace rest

/-- The admin addKit: build the label Kit, size, gender (dropping falsy
parts), normalize it, skip the falsy key, else increment. -/
def addKitAdmin (m : List (String × Nat)) (size gender : String) : List (String × Nat) :=
  let label := joinSpace ((["Kit", jsTrim size, jsTrim gender]).filter (fun s => s ≠ ""))
  let key := normalizeKit label
  if key = "" then m else bump m key

/-- One iteration of the admin totals loop: both structured kit fields
(the gender columns do not exist, hence ""), then the legacy combined
uniforms string split on slash when it contains a slash. -/
def adminAddEntry (m : List (String × Nat)) (e : Entry) : List (String × Nat) :=
  let m := addKitAdmin m e.athlete1_kit ""
  let m := addKitAdmin m e.athlete2_kit ""
  if e.uniforms.data.contains '/' then
    let ks := ((splitSlash e.uniforms).map jsTrim).filter (fun s => s ≠ "")
    let k1 := ks.getD 0 ""
    let k2 := ks.getD 1 ""
    let m := if k1 ≠ "" then addKitAdmin m k1 "" else m
    if k2 ≠ "" then addKitAdmin m k2 "" else m
  else m

/-- The admin uniform totals over the filtered entries. -/
def adminAggregate (entries : List Entry) : List (String × Nat) :=
  entries.foldl adminAddEntry []

/-- The export addKit: normalize the raw string, skip the falsy key, else
increment. -/
def addKitExport (m : List (String × Nat)) (raw : String) : List (String × Nat) :=
  let key := normalizeKit raw
  if key = "" then m else bump m key

/-- One iteration of the export totals loop: each structured kit field
when truthy, then the legacy combined uniforms string split on slash. -/
def exportAddEntry (m : List (String × Nat)) (e : Entry) : List (String × Nat) :=
  let m := if e.athlete1_kit ≠ "" then addKitExport m e.athlete1_kit else m
  let m := if e.athlete2_kit ≠ "" then addKitExport m e.athlete2_kit else m
  if e.uniforms.data.contains '/' then
    let ks := ((splitSlash e.uniforms).map jsTrim).filter (fun s => s ≠ "")
    let k1 := ks.getD 0 ""
    let k2 := ks.getD 1 ""
    let m := if k1 ≠ "" then addKitExport m k1 else m
    if k2 ≠ "" then addKitExport m k2 else m
  else m

/-- The export uniform totals over the filtered entries. -/
def exportAggregate (entries : List Entry) : List (String × Nat) :=
  entries.foldl exportAddEntry []

/-! ReviewWorkflow: the approve and reject handlers, src/server.js lines
380 to 399, with sendStatusEmail at lines 83 to 125. -/

/-- Outcome of an admin review action: redirect back to the admin page on
success, HTTP 404 when the id is unknown. -/
inductive ReviewResult where
  | redirect
  | notFound
deriving DecidableEq, Repr

/-- Observable outcome of a review handler: the HTTP result, the entries
table afterwards, and the attempted notifications as pairs of recipient
list and status, each tagged with the delivery outcome. -/
structure ReviewOutcome where
  result : ReviewResult
  store : List Entry
  emails : List (String × String × Bool)
deriving DecidableEq, Repr

/-- JS array join with a comma and space separator. -/
def joinComma : List String → String
  | [] => ""
  | [s] => s
  | s :: rest => s ++ ", " ++ joinComma rest

/-- sendStatusEmail: join the truthy athlete emails with a comma; without
recipients nothing is sent; otherwise one message is attempted, whose
delivery outcome mailOk is swallowed by the try catch around sendMail. -/
def sendStatusEmailModel (mailOk : Bool) (entry : Entry) (status : String) :
    List (String × String × Bool) :=
  let recipients := joinComma (([entry.athlete1_email, entry.athlete2_email]).filter (fun s => s ≠ ""))
  if recipients = "" then [] else [(recipients, status, mailOk)]

/-- A review handler: look the entry up by primary key, answer 404 when
absent, otherwise persist the new status for that id, then attempt the
status email (its failure is swallowed by try catch) and redirect. -/
def reviewTransition (newStatus : String) (mailOk : Bool)
    (store : List Entry) (id : String) : ReviewOutcome :=
  match store.find? (fun e => e.id == id) with
  | none => ⟨ReviewResult.notFound, store, []⟩
  | some entry =>
    let store' := store.map (fun e => if e.id == id then { e with status := newStatus } else e)
    ⟨ReviewResult.redirect, store', sendStatusEmailModel mailOk entry newStatus⟩

/-- The approve handler: transition to accepted. -/
def approveEntry (mailOk : Bool) (store : List Entry) (id : String) : ReviewOutcome :=
  reviewTransition "accepted" mailOk store id

/-- The reject handler: transition to rejected. -/
def rejectEntry (mailOk : Bool) (store : List Entry) (id : String) : ReviewOutcome :=
  reviewTransition "rejected" mailOk store id

/-! Concrete fixtures used by counterexamples and witnesses. -/

/-- A form body with every field absent. -/
def blankForm : FormBody :=
  ⟨"", "", "", "", "", "", "", "", "", "", "", "", "", "", "", ""⟩

/-- An entry row with every optional field absent. -/
def blankEntry : Entry :=
  { id := "", submittedAt := 0,
    athlete1_name := "", athlete1_phone := "", athlete1_email := "",
    athlete1_city := "", athlete1_kit := "",
    athlete2_name := "", athlete2_phone := "", athlete2_email := "",
    athlete2_city := "", athlete2_kit := "",
    duo_name := "", duo_category := "", duo_instagram := "",
    consent := false, uniforms := "", paymentProof := "", paymentProofUrl := "",
    fileHash := "", status := "", validation_ok := none, validation_score := 0,
    validation_mime := "", validation_textSample := none }

/-- A pre-structured-fields entry: only the legacy combined uniforms
string, no structured kit fields. -/
def eLegacy : Entry :=
  { blankEntry with
    duo_category := "Elite"
    uniforms := "M / G"
    fileHash := "h1"
    status := "pending_review"
    consent := true }

/-- An otherwise-full entryLike without consent. -/
def eFullNC : EntryLike :=
  { athlete1_name := "Ana", athlete1_phone := "11", athlete1_email := "a@x.br",
    athlete1_cep := "01", athlete1_city := "SP", athlete1_kit := "M",
    athlete2_name := "Bia", athlete2_phone := "22", athlete2_email := "b@x.br",
    athlete2_cep := "02", athlete2_city := "RJ", athlete2_kit := "G",
    duo_name := "Duo", duo_category := "Elite", duo_instagram := "@duo",
    consent := false }

/-- A concrete digest function for witnesses. -/
def wHash : List Nat → String := fun _ => "h0"

/-- The empty server state. -/
def wState : ServerState := ⟨[], []⟩

/-- A first upload. -/
def wFilePdf : UploadedFile := ⟨"comprovante.pdf", "tmpa", "application/pdf", [1, 2, 3]⟩

/-- A second upload with the same bytes under another client name. -/
def wFilePng : UploadedFile := ⟨"outro.PNG", "tmpb", "image/png", [1, 2, 3]⟩

/-- An upload used to build the entry with structured kits. -/
def cFileMG : UploadedFile := ⟨"proof.pdf", "abc123", "application/pdf", [7]⟩

/-- A form with both structured kits filled in. -/
def cFormMG : FormBody :=
  { blankForm with
    entryKit1 := "M"
    entryKit2 := "G"
    entry666666666 := "Elite"
    acceptTerms := "on" }

/-- The entry the submit handler persists for cFormMG. -/
def cEntryMG : Entry :=
  ((submit wHash "id0" 0 wState (some cFileMG) cFormMG).2.entries).getD 0 blankEntry

/-- A stored entry awaiting review. -/
def wReviewEntry : Entry :=
  { blankEntry with
    id := "1"
    athlete1_email := "a@x.br"
    duo_category := "Elite"
    status := "pending_review" }

/-! Helper lemmas shared by the claim theorems. -/

/-- A cons cell with another key does not affect a lookup. -/
theorem lookupCount_cons_ne (k1 : String) (n : Nat) (l : List (String × Nat)) (k : String)
    (h : k1 ≠ k) : lookupCount ((k1, n) :: l) k = lookupCount l k := by
  unfold lookupCount
  rw [List.find?_cons_of_neg _ (by simpa using h)]

/-- Incrementing a key raises exactly its own count by one. -/
theorem lookupCount_bump (m : List (String × Nat)) (k : String) :
    lookupCount (bump m k) k = lookupCount m k + 1 := by
  induction m with
  | nil => simp [bump, lookupCount]
  | cons p rest ih =>
    rcases p with ⟨k1, n⟩
    by_cases h : k1 = k
    · subst h
      simp [bump, lookupCount]
    · rw [bump, if_neg h, lookupCount_cons_ne k1 n _ k h, lookupCount_cons_ne k1 n _ k h, ih]

/-- After the status update map, every row with the reviewed id carries
the new status. -/
theorem status_after_update (store : List Entry) (id ns : String) :
    ∀ x ∈ store.map (fun y => if y.id == id then { y with status := ns } else y),
      x.id = id → x.status = ns := by
  intro x hx hid
  rcases List.mem_map.1 hx with ⟨y, hy, rfl⟩
  by_cases hyid : (y.id == id)
  · rw [if_pos hyid]
  · rw [if_neg hyid] at hid
    exact absurd hid (by simpa using hyid)

/-! Claim theorems. -/

/-- C1: for every pair of submissions whose uploaded files have
byte-identical content (regardless of filename), when the first
submission succeeds the second aborts with the duplicate conflict after
the fingerprint lookup finds the first entry, writes no second entry
row, yet its renamed upload remains on disk; the first submission
persisted exactly one entry. -/
theorem intake_dedup_second_submission_conflicts
    (hash : List Nat → String) (id1 id2 : String) (t1 t2 : Nat)
    (st : ServerState) (f1 f2 : UploadedFile) (b1 b2 : FormBody)
    (hc : f1.content = f2.content)
    (h1 : (submit hash id1 t1 st (some f1) b1).1 = SubmitResult.redirectObrigado) :
    (submit hash id2 t2 (submit hash id1 t1 st (some f1) b1).2 (some f2) b2).1
        = SubmitResult.duplicateProof
    ∧ (submit hash id2 t2 (submit hash id1 t1 st (some f1) b1).2 (some f2) b2).2.entries
        = (submit hash id1 t1 st (some f1) b1).2.entries
    ∧ (submit hash id1 t1 st (some f1) b1).2.entries.length = st.entries.length + 1
    ∧ (f2.filename ++ jsToLower (jsExtname f2.originalname), f2.content)
        ∈ (submit hash id2 t2 (submit hash id1 t1 st (some f1) b1).2 (some f2) b2).2.uploads := by
  have hc2 : hash f2.content = hash f1.content := by rw [hc]
  simp only [submit] at h1 ⊢
  rcases hfind : st.entries.find? (fun e => e.fileHash == hash f1.content) with _ | e0
  · rw [hfind] at h1 ⊢
    have hnew : (List.find? (fun e => e.fileHash == hash f2.content)
        (st.entries ++ [buildEntry id1 t1 b1 (f1.filename ++ jsToLower (jsExtname f1.originalname))
          (hash f1.content) f1.mimetype
          (computeScore (buildEntryLike b1) (jsToLower (jsExtname f1.originalname)))]))
        = some (buildEntry id1 t1 b1 (f1.filename ++ jsToLower (jsExtname f1.originalname))
          (hash f1.content) f1.mimetype
          (computeScore (buildEntryLike b1) (jsToLower (jsExtname f1.originalname)))) := by
      rw [hc2, List.find?_append, hfind]
      simp [buildEntry]
    rw [hnew]
    refine ⟨rfl, rfl, by simp, ?_⟩
    simp
  · rw [hfind] at h1
    simp at h1

/-- C1 witness: two uploads with the same bytes against the empty store;
the first submission succeeds and the second hits the conflict. -/
theorem intake_dedup_second_submission_conflicts_witness :
    wFilePdf.content = wFilePng.content
    ∧ (submit wHash "id1" 0 wState (some wFilePdf) blankForm).1 = SubmitResult.redirectObrigado
    ∧ ((submit wHash "id2" 1 (submit wHash "id1" 0 wState (some wFilePdf) blankForm).2
          (some wFilePng) blankForm).1 = SubmitResult.duplicateProof
      ∧ (submit wHash "id2" 1 (submit wHash "id1" 0 wState (some wFilePdf) blankForm).2
          (some wFilePng) blankForm).2.entries
          = (submit wHash "id1" 0 wState (some wFilePdf) blankForm).2.entries
      ∧ (submit wHash "id1" 0 wState (some wFilePdf) blankForm).2.entries.length
          = wState.entries.length + 1
      ∧ (wFilePng.filename ++ jsToLower (jsExtname wFilePng.originalname), wFilePng.content)
          ∈ (submit wHash "id2" 1 (submit wHash "id1" 0 wState (some wFilePdf) blankForm).2
              (some wFilePng) blankForm).2.uploads) :=
  ⟨rfl, by decide,
    intake_dedup_second_submission_conflicts wHash "id1" "id2" 0 1 wState
      wFilePdf wFilePng blankForm blankForm rfl (by decide)⟩

/-- C2 counterexample: the entry the pipeline persists for a form with
both structured kits carries the structured kit fields and the legacy
combined uniforms string at the same time, and the aggregator counts
each kit twice, once per path. -/
theorem intake_structured_and_legacy_coexist_cex :
    cEntryMG.athlete1_kit = "M" ∧ cEntryMG.athlete2_kit = "G"
    ∧ cEntryMG.uniforms = "M / G" ∧ cEntryMG.uniforms.data.contains '/' = true
    ∧ exportAggregate [cEntryMG] = [("Kit M", 2), ("Kit G", 2)]
    ∧ adminAggregate [cEntryMG] = [("Kit M", 2), ("Kit G", 2)] := by decide

/-- C2 amended: every entry created by the intake pipeline carries the
legacy combined uniforms string kit1 slash kit2, which always contains a
slash, so the structured kit fields and the legacy string are not
mutually exclusive; on such an entry the aggregator counts each athlete
kit once per path (twice in total), as the concrete evaluation shows. -/
theorem intake_legacy_uniforms_always_written :
    (∀ (freshId : String) (now : Nat) (b : FormBody)
        (finalName fileHash mimetype : String) (score : Int),
      (buildEntry freshId now b finalName fileHash mimetype score).uniforms
        = b.entryKit1 ++ " / " ++ b.entryKit2
      ∧ '/' ∈ (buildEntry freshId now b finalName fileHash mimetype score).uniforms.data)
    ∧ exportAggregate [cEntryMG] = [("Kit M", 2), ("Kit G", 2)] := by
  refine ⟨fun freshId now b finalName fileHash mimetype score => ⟨rfl, ?_⟩, by decide⟩
  show '/' ∈ (b.entryKit1 ++ " / " ++ b.entryKit2).data
  simp [String.data_append]

/-- C3: over the entry holding only the legacy uniforms string M slash G,
the export aggregation loop produces exactly the two keys Kit M and
Kit G with count one, but the admin aggregation loop additionally emits
the phantom key Kit with count two, because it calls addKit for both
absent structured kit fields and the label Kit survives the falsy-key
guard. -/
theorem admin_aggregate_phantom_kit_on_legacy_entry :
    adminAggregate [eLegacy] = [("Kit", 2), ("Kit M", 1), ("Kit G", 1)]
    ∧ exportAggregate [eLegacy] = [("Kit M", 1), ("Kit G", 1)] := by decide

/-- C4: for every combination of entry fields and file extension the
scorer returns exactly the reference value of the spec (base 50 plus the
listed bonuses, minus the consent penalty, clamped), and the result
always lies between 0 and 100. -/
theorem computeScore_matches_spec_and_bounded :
    ∀ (e : EntryLike) (ext : String),
      computeScore e ext = scoreSpec e ext
      ∧ 0 ≤ computeScore e ext ∧ computeScore e ext ≤ 100 := by
  intro e ext
  refine ⟨rfl, ?_, ?_⟩ <;>
  · simp only [computeScore]
    split_ifs <;> omega

/-- C5 counterexample: on an otherwise-full entry without consent and
with an accepted extension the scorer returns 85, not the 80 the spec
announces. -/
theorem computeScore_full_no_consent_cex :
    computeScore eFullNC ".pdf" = 85 ∧ computeScore eFullNC ".pdf" ≠ 80 := by decide

/-- C5 amended: the scorer applied to an otherwise-full entry (accepted
extension, both emails, both kits, duo name, category and Instagram all
present) with consent not given returns 85: the sum 50 plus 10 plus 10
plus 10 plus 10 plus 10 plus 5 minus 20 is 85, inside the clamp range. -/
theorem computeScore_full_no_consent_85 (e : EntryLike) (ext : String)
    (hext : ext ∈ goodExtList) (h1 : e.athlete1_email ≠ "") (h2 : e.athlete2_email ≠ "")
    (h3 : e.athlete1_kit ≠ "") (h4 : e.athlete2_kit ≠ "") (h5 : e.duo_name ≠ "")
    (h6 : e.duo_category ≠ "") (h7 : e.duo_instagram ≠ "") (hc : e.consent = false) :
    computeScore e ext = 85 := by
  simp [computeScore, hext, h1, h2, h3, h4, h5, h6, h7, hc]

/-- C5 witness: the concrete otherwise-full entry without consent. -/
theorem computeScore_full_no_consent_85_witness :
    (".pdf" ∈ goodExtList) ∧ eFullNC.athlete1_email ≠ "" ∧ eFullNC.athlete2_email ≠ ""
    ∧ eFullNC.athlete1_kit ≠ "" ∧ eFullNC.athlete2_kit ≠ "" ∧ eFullNC.duo_name ≠ ""
    ∧ eFullNC.duo_category ≠ "" ∧ eFullNC.duo_instagram ≠ "" ∧ eFullNC.consent = false
    ∧ computeScore eFullNC ".pdf" = 85 :=
  ⟨by decide, by decide, by decide, by decide, by decide, by decide, by decide, by decide,
    by decide,
    computeScore_full_no_consent_85 eFullNC ".pdf" (by decide) (by decide) (by decide)
      (by decide) (by decide) (by decide) (by decide) (by decide) (by decide)⟩

/-- C6: raw kit strings with the same normalization are accumulated
under that single shared key, whose count rises by two when both are
added, and the two example spellings both normalize to Kit M Masculino. -/
theorem normalize_equal_kits_share_key (s1 s2 : String) (m : List (String × Nat))
    (h : normalizeKit s1 = normalizeKit s2) (hne : normalizeKit s1 ≠ "") :
    lookupCount (addKitExport (addKitExport m s1) s2) (normalizeKit s1)
      = lookupCount m (normalizeKit s1) + 2
    ∧ normalizeKit "m masculino" = "Kit M Masculino"
    ∧ normalizeKit "M   Masculino" = "Kit M Masculino" := by
  refine ⟨?_, by decide, by decide⟩
  have h2 : normalizeKit s2 ≠ "" := h ▸ hne
  simp only [addKitExport, if_neg hne, if_neg h2, ← h]
  rw [lookupCount_bump, lookupCount_bump]

/-- C6 witness: the two example spellings against the empty totals. -/
theorem normalize_equal_kits_share_key_witness :
    normalizeKit "m masculino" = normalizeKit "M   Masculino"
    ∧ normalizeKit "m masculino" ≠ ""
    ∧ (lookupCount (addKitExport (addKitExport [] "m masculino") "M   Masculino")
        (normalizeKit "m masculino") = lookupCount [] (normalizeKit "m masculino") + 2
      ∧ normalizeKit "m masculino" = "Kit M Masculino"
      ∧ normalizeKit "M   Masculino" = "Kit M Masculino") :=
  ⟨by decide, by decide,
    normalize_equal_kits_share_key "m masculino" "M   Masculino" [] (by decide) (by decide)⟩

/-- C7: when the reviewed id exists, both review handlers persist the
new status for that id and report the redirect, and neither the reported
result nor the stored table depends on whether the notification
delivery succeeds or fails: the failure is swallowed, never rolled back,
never surfaced. -/
theorem review_persists_status_ignores_notifier
    (store : List Entry) (id : String) (e : Entry) (m1 m2 : Bool)
    (hfound : store.find? (fun x => x.id == id) = some e) :
    (approveEntry m1 store id).result = ReviewResult.redirect
    ∧ (∀ x ∈ (approveEntry m1 store id).store, x.id = id → x.status = "accepted")
    ∧ (approveEntry m1 store id).result = (approveEntry m2 store id).result
    ∧ (approveEntry m1 store id).store = (approveEntry m2 store id).store
    ∧ (rejectEntry m1 store id).result = ReviewResult.redirect
    ∧ (∀ x ∈ (rejectEntry m1 store id).store, x.id = id → x.status = "rejected")
    ∧ (rejectEntry m1 store id).result = (rejectEntry m2 store id).result
    ∧ (rejectEntry m1 store id).store = (rejectEntry m2 store id).store := by
  have key : ∀ (ns : String) (mo : Bool),
      reviewTransition ns mo store id
        = ⟨ReviewResult.redirect,
           store.map (fun x => if x.id == id then { x with status := ns } else x),
           sendStatusEmailModel mo e ns⟩ := by
    intro ns mo
    simp [reviewTransition, hfound]
  refine ⟨?_, ?_, ?_, ?_, ?_, ?_, ?_, ?_⟩
  · simp only [approveEntry, key]
  · simp only [approveEntry, key]
    exact status_after_update store id "accepted"
  · simp only [approveEntry, key]
  · simp only [approveEntry, key]
  · simp only [rejectEntry, key]
  · simp only [rejectEntry, key]
    exact status_after_update store id "rejected"
  · simp only [rejectEntry, key]
  · simp only [rejectEntry, key]

/-- C7 witness: a one-row store reviewed under delivery success and
delivery failure. -/
theorem review_persists_status_ignores_notifier_witness :
    [wReviewEntry].find? (fun x => x.id == "1") = some wReviewEntry
    ∧ ((approveEntry true [wReviewEntry] "1").result = ReviewResult.redirect
      ∧ (∀ x ∈ (approveEntry true [wReviewEntry] "1").store, x.id = "1" → x.status = "accepted")
      ∧ (approveEntry true [wReviewEntry] "1").result = (approveEntry false [wReviewEntry] "1").result
      ∧ (approveEntry true [wReviewEntry] "1").store = (approveEntry false [wReviewEntry] "1").store
      ∧ (rejectEntry true [wReviewEntry] "1").result = ReviewResult.redirect
      ∧ (∀ x ∈ (rejectEntry true [wReviewEntry] "1").store, x.id = "1" → x.status = "rejected")
      ∧ (rejectEntry true [wReviewEntry] "1").result = (rejectEntry false [wReviewEntry] "1").result
      ∧ (rejectEntry true [wReviewEntry] "1").store = (rejectEntry false [wReviewEntry] "1").store) :=
  ⟨by decide,
    review_persists_status_ignores_notifier [wReviewEntry] "1" wReviewEntry true false (by decide)⟩

/-- C8: when no stored entry has the requested id, both review handlers
answer not found, leave the store untouched and attempt no
notification. -/
theorem review_unknown_id_not_found (store : List Entry) (id : String) (m : Bool)
    (hnone : store.find? (fun e => e.id == id) = none) :
    approveEntry m store id = ⟨ReviewResult.notFound, store, []⟩
    ∧ rejectEntry m store id = ⟨ReviewResult.notFound, store, []⟩ := by
  constructor <;> simp [approveEntry, rejectEntry, reviewTransition, hnone]

/-- C8 witness: the empty store has no entry with id zz. -/
theorem review_unknown_id_not_found_witness :
    ([] : List Entry).find? (fun e => e.id == "zz") = none
    ∧ (approveEntry true [] "zz" = ⟨ReviewResult.notFound, [], []⟩
      ∧ rejectEntry true [] "zz" = ⟨ReviewResult.notFound, [], []⟩) :=
  ⟨rfl, review_unknown_id_not_found [] "zz" true rfl⟩

/-- C9 counterexample: the normalizer is not idempotent: a blank input
normalizes to the string Kit followed by a trailing space, which
re-normalizes to Kit without the space. -/
theorem normalizeKit_not_idempotent_on_blank :
    normalizeKit " " = "Kit " ∧ normalizeKit (normalizeKit " ") = "Kit"
    ∧ normalizeKit (normalizeKit " ") ≠ normalizeKit " " := by decide

/-- C10: the scorer never returns less than 30: the only deduction is 20
from a base of at least 50, so the lower clamp at 0 is never reached. -/
theorem computeScore_at_least_30 : ∀ (e : EntryLike) (ext : String), 30 ≤ computeScore e ext := by
  intro e ext
  simp only [computeScore]
  split_ifs <;> omega

/-! Character-level lemmas about the ASCII case maps, used to prove the
idempotence property of the normalizer. -/

/-- toNat of ofNat at a valid code point. -/
theorem char_toNat_ofNat_valid (n : Nat) (h : n.isValidChar) : (Char.ofNat n).toNat = n := by
  simp [Char.ofNat, dif_pos h, Char.ofNatAux, Char.toNat, UInt32.toNat, BitVec.ofNatLt]

/-- Lower-casing after upper-casing equals lower-casing. -/
theorem toLower_toUpper (c : Char) : c.toUpper.toLower = c.toLower := by
  unfold Char.toUpper Char.toLower
  by_cases h : c.toNat ≥ 97 ∧ c.toNat ≤ 122
  · rw [if_pos h]
    have hv : (c.toNat - 32).isValidChar := Or.inl (by omega)
    rw [char_toNat_ofNat_valid _ hv]
    rw [if_pos (by omega : c.toNat - 32 ≥ 65 ∧ c.toNat - 32 ≤ 90)]
    rw [if_neg (by omega : ¬(c.toNat ≥ 65 ∧ c.toNat ≤ 90))]
    have h32 : c.toNat - 32 + 32 = c.toNat := by omega
    rw [h32, Char.ofNat_toNat]
  · rw [if_neg h]

/-- Lower-casing is idempotent. -/
theorem toLower_toLower (c : Char) : c.toLower.toLower = c.toLower := by
  unfold Char.toLower
  by_cases h : c.toNat ≥ 65 ∧ c.toNat ≤ 90
  · rw [if_pos h]
    have hv : (c.toNat + 32).isValidChar := Or.inl (by omega)
    rw [char_toNat_ofNat_valid _ hv]
    rw [if_neg (by omega : ¬(c.toNat + 32 ≥ 65 ∧ c.toNat + 32 ≤ 90))]
  · rw [if_neg h, if_neg h]

/-- Upper-casing is idempotent. -/
theorem toUpper_toUpper (c : Char) : c.toUpper.toUpper = c.toUpper := by
  unfold Char.toUpper
  by_cases h : c.toNat ≥ 97 ∧ c.toNat ≤ 122
  · rw [if_pos h]
    have hv : (c.toNat - 32).isValidChar := Or.inl (by omega)
    rw [char_toNat_ofNat_valid _ hv]
    rw [if_neg (by omega : ¬(c.toNat - 32 ≥ 97 ∧ c.toNat - 32 ≤ 122))]
  · rw [if_neg h, if_neg h]

/-- Lower-casing does not change word-character-ness. -/
theorem isWordChar_toLower (c : Char) : isWordChar c.toLower = isWordChar c := by
  unfold Char.toLower isWordChar
  by_cases h : c.toNat ≥ 65 ∧ c.toNat ≤ 90
  · rw [if_pos h]
    have hv : (c.toNat + 32).isValidChar := Or.inl (by omega)
    rw [char_toNat_ofNat_valid _ hv]
    rw [Bool.eq_iff_iff]
    simp only [Bool.or_eq_true, Bool.and_eq_true, decide_eq_true_eq]
    omega
  · rw [if_neg h]

/-- Upper-casing does not change word-character-ness. -/
theorem isWordChar_toUpper (c : Char) : isWordChar c.toUpper = isWordChar c := by
  unfold Char.toUpper isWordChar
  by_cases h : c.toNat ≥ 97 ∧ c.toNat ≤ 122
  · rw [if_pos h]
    have hv : (c.toNat - 32).isValidChar := Or.inl (by omega)
    rw [char_toNat_ofNat_valid _ hv]
    rw [Bool.eq_iff_iff]
    simp only [Bool.or_eq_true, Bool.and_eq_true, decide_eq_true_eq]
    omega
  · rw [if_neg h]

/-- Lower-casing does not change whitespace-ness. -/
theorem jsSpace_toLower (c : Char) : jsSpace c.toLower = jsSpace c := by
  unfold Char.toLower jsSpace
  by_cases h : c.toNat ≥ 65 ∧ c.toNat ≤ 90
  · rw [if_pos h]
    have hv : (c.toNat + 32).isValidChar := Or.inl (by omega)
    rw [char_toNat_ofNat_valid _ hv]
    rw [Bool.eq_iff_iff]
    simp only [jsSpaceCodes, List.mem_cons, List.not_mem_nil, or_false, decide_eq_true_eq]
    omega
  · rw [if_neg h]

/-- Only the space character lower-cases to a space. -/
theorem eq_space_of_toLower (c : Char) (h : c.toLower = ' ') : c = ' ' := by
  by_cases hr : c.toNat ≥ 65 ∧ c.toNat ≤ 90
  · exfalso
    have hv : (c.toNat + 32).isValidChar := Or.inl (by omega)
    have hl : c.toLower.toNat = c.toNat + 32 := by
      unfold Char.toLower
      rw [if_pos hr, char_toNat_ofNat_valid _ hv]
    rw [h] at hl
    rw [show (' ').toNat = 32 from rfl] at hl
    omega
  · unfold Char.toLower at h
    rwa [if_neg hr] at h

/-- Characters with the same lower-casing agree on word-character-ness. -/
theorem isWordChar_eq_of_lower (a b : Char) (h : a.toLower = b.toLower) :
    isWordChar a = isWordChar b := by
  rw [← isWordChar_toLower a, h, isWordChar_toLower b]

/-- Characters with the same lower-casing agree on whitespace-ness. -/
theorem jsSpace_eq_of_lower (a b : Char) (h : a.toLower = b.toLower) :
    jsSpace a = jsSpace b := by
  rw [← jsSpace_toLower a, h, jsSpace_toLower b]

/-- Characters with the same lower-casing agree on being the space. -/
theorem eq_space_iff_of_lower (a b : Char) (h : a.toLower = b.toLower) :
    a = ' ' ↔ b = ' ' := by
  constructor
  · intro ha
    subst ha
    exact eq_space_of_toLower b (by rw [← h]; rfl)
  · intro hb
    subst hb
    exact eq_space_of_toLower a (by rw [h]; rfl)

/-- The run map preserves the lower-cased projection whenever the run
replacement does. -/
theorem mapRunsAux_lower (f : List Char → List Char)
    (Hf : ∀ r, (f r).map Char.toLower = r.map Char.toLower) :
    ∀ (l acc : List Char),
      (mapRunsAux f acc l).map Char.toLower = (acc.reverse ++ l).map Char.toLower := by
  intro l
  induction l with
  | nil =>
    intro acc
    simp [mapRunsAux, Hf]
  | cons c cs ih =>
    intro acc
    by_cases hw : isWordChar c
    · simp only [mapRunsAux, hw, if_true]
      rw [ih (c :: acc)]
      simp
    · simp only [mapRunsAux, hw, Bool.false_eq_true, if_false]
      simp only [List.map_append, List.map_cons]
      rw [Hf, ih []]
      simp

/-- On an all-word list the scanner just flushes one run. -/
theorem mapRunsAux_allword (f : List Char → List Char) (w : List Char)
    (hw : w.all isWordChar = true) :
    ∀ acc : List Char, mapRunsAux f acc w = f (acc.reverse ++ w) := by
  induction w with
  | nil => intro acc; simp [mapRunsAux]
  | cons c cs ih =>
    intro acc
    simp only [List.all_cons, Bool.and_eq_true] at hw
    simp only [mapRunsAux, hw.1, if_true]
    rw [ih hw.2 (c :: acc)]
    simp

/-- On an all-word block followed by a non-word character the scanner
flushes the block and continues after the separator. -/
theorem mapRunsAux_allword_append (f : List Char → List Char) (w : List Char)
    (hw : w.all isWordChar = true) (c : Char) (hc : isWordChar c = false) (X : List Char) :
    ∀ acc : List Char,
      mapRunsAux f acc (w ++ c :: X) = f (acc.reverse ++ w) ++ c :: mapRunsAux f [] X := by
  induction w with
  | nil =>
    intro acc
    simp [mapRunsAux, hc]
  | cons d ds ih =>
    intro acc
    simp only [List.all_cons, Bool.and_eq_true] at hw
    simp only [List.cons_append, mapRunsAux, hw.1, if_true, List.append_eq]
    rw [ih hw.2 (d :: acc)]
    simp

/-- Two run maps compose into the run map of the composed replacement,
provided the first replacement keeps runs made of word characters. -/
theorem mapRunsAux_comp (f g : List Char → List Char)
    (Hf : ∀ r, r.all isWordChar = true → (f r).all isWordChar = true) :
    ∀ (l acc : List Char), acc.all isWordChar = true →
      mapRunsAux g [] (mapRunsAux f acc l) = mapRunsAux (fun r => g (f r)) acc l := by
  intro l
  induction l with
  | nil =>
    intro acc hacc
    simp only [mapRunsAux]
    rw [mapRunsAux_allword g _ (Hf _ (by simpa using hacc)) []]
    simp
  | cons c cs ih =>
    intro acc hacc
    by_cases hw : isWordChar c
    · simp only [mapRunsAux, hw, if_true]
      exact ih (c :: acc) (by simp [hacc, hw])
    · simp only [mapRunsAux, hw, Bool.false_eq_true, if_false]
      rw [mapRunsAux_allword_append g _ (Hf _ (by simpa using hacc)) c (by simpa using hw) _ []]
      rw [ih [] rfl]
      simp

/-- Run maps agree when their replacements agree on all-word runs. -/
theorem mapRunsAux_congr (f g : List Char → List Char)
    (H : ∀ r, r.all isWordChar = true → f r = g r) :
    ∀ (l acc : List Char), acc.all isWordChar = true →
      mapRunsAux f acc l = mapRunsAux g acc l := by
  intro l
  induction l with
  | nil =>
    intro acc hacc
    simp only [mapRunsAux]
    exact H _ (by simpa using hacc)
  | cons c cs ih =>
    intro acc hacc
    by_cases hw : isWordChar c
    · simp only [mapRunsAux, hw, if_true]
      exact ih (c :: acc) (by simp [hacc, hw])
    · simp only [mapRunsAux, hw, Bool.false_eq_true, if_false]
      rw [H _ (by simpa using hacc), ih [] rfl]

/-- Lower-casing after an upper-cased list equals lower-casing it. -/
theorem map_toLower_toUpper (r : List Char) :
    (r.map Char.toUpper).map Char.toLower = r.map Char.toLower := by
  induction r with
  | nil => rfl
  | cons c cs ih => simp [toLower_toUpper, ih]

/-- Lower-casing a list twice equals lower-casing it once. -/
theorem map_toLower_toLower (r : List Char) :
    (r.map Char.toLower).map Char.toLower = r.map Char.toLower := by
  induction r with
  | nil => rfl
  | cons c cs ih => simp [toLower_toLower, ih]

/-- The size replacement preserves the lower-cased projection. -/
theorem sizeRepl_lower (r : List Char) :
    (sizeRepl r).map Char.toLower = r.map Char.toLower := by
  unfold sizeRepl
  by_cases h : r.map Char.toLower ∈ sizeToks
  · rw [if_pos h, map_toLower_toUpper]
  · rw [if_neg h]

/-- Title-casing preserves the lower-cased projection. -/
theorem capWord_lower (r : List Char) :
    (capWord r).map Char.toLower = r.map Char.toLower := by
  cases r with
  | nil => rfl
  | cons c cs => simp [capWord, toLower_toUpper, toLower_toLower]

/-- The gender replacement preserves the lower-cased projection. -/
theorem genderRepl_lower (r : List Char) :
    (genderRepl r).map Char.toLower = r.map Char.toLower := by
  unfold genderRepl
  by_cases h : r.map Char.toLower ∈ genderToks
  · rw [if_pos h, capWord_lower]
  · rw [if_neg h]

/-- All-word status transfers along equal lower-cased projections. -/
theorem allword_of_lower_eq (r s : List Char) (h : r.map Char.toLower = s.map Char.toLower)
    (hs : s.all isWordChar = true) : r.all isWordChar = true := by
  induction r generalizing s with
  | nil => rfl
  | cons c cs ih =>
    cases s with
    | nil => simp at h
    | cons d ds =>
      simp only [List.map_cons, List.cons.injEq] at h
      simp only [List.all_cons, Bool.and_eq_true] at hs ⊢
      exact ⟨(isWordChar_eq_of_lower c d h.1).trans hs.1, ih ds h.2 hs.2⟩

/-- The size replacement keeps all-word runs all-word. -/
theorem sizeRepl_allword (r : List Char) (h : r.all isWordChar = true) :
    (sizeRepl r).all isWordChar = true := by
  unfold sizeRepl
  by_cases hm : r.map Char.toLower ∈ sizeToks
  · rw [if_pos hm]
    exact allword_of_lower_eq _ r (map_toLower_toUpper r) h
  · rwa [if_neg hm]

/-- The gender replacement keeps all-word runs all-word. -/
theorem genderRepl_allword (r : List Char) (h : r.all isWordChar = true) :
    (genderRepl r).all isWordChar = true := by
  unfold genderRepl
  by_cases hm : r.map Char.toLower ∈ genderToks
  · rw [if_pos hm]
    exact allword_of_lower_eq _ r (capWord_lower r) h
  · rwa [if_neg hm]

/-- The size and gender token sets are disjoint. -/
theorem size_not_gender (x : List Char) (h : x ∈ sizeToks) : x ∉ genderToks := by
  fin_cases h <;> decide

/-- Upper-casing a list is idempotent. -/
theorem map_toUpper_toUpper (r : List Char) :
    (r.map Char.toUpper).map Char.toUpper = r.map Char.toUpper := by
  induction r with
  | nil => rfl
  | cons c cs ih => simp [toUpper_toUpper, ih]

/-- Title-casing a run is idempotent. -/
theorem capWord_capWord (r : List Char) : capWord (capWord r) = capWord r := by
  cases r with
  | nil => rfl
  | cons c cs => simp [capWord, toUpper_toUpper, toLower_toLower]

/-- The composed run replacement (size pass then gender pass) is
idempotent on every run. -/
theorem gsComp_fix (r : List Char) :
    genderRepl (sizeRepl (genderRepl (sizeRepl r))) = genderRepl (sizeRepl r) := by
  by_cases hS : r.map Char.toLower ∈ sizeToks
  · have h1 : sizeRepl r = r.map Char.toUpper := by rw [sizeRepl, if_pos hS]
    have hlow : (r.map Char.toUpper).map Char.toLower = r.map Char.toLower := map_toLower_toUpper r
    have hG : (r.map Char.toUpper).map Char.toLower ∉ genderToks := by
      rw [hlow]; exact size_not_gender _ hS
    have h2 : genderRepl (r.map Char.toUpper) = r.map Char.toUpper := by
      rw [genderRepl, if_neg hG]
    have h3 : sizeRepl (r.map Char.toUpper) = r.map Char.toUpper := by
      rw [sizeRepl, if_pos (hlow ▸ hS), map_toUpper_toUpper]
    rw [h1, h2, h3, h2]
  · have h1 : sizeRepl r = r := by rw [sizeRepl, if_neg hS]
    by_cases hG : r.map Char.toLower ∈ genderToks
    · have h2 : genderRepl r = capWord r := by rw [genderRepl, if_pos hG]
      have hlow : (capWord r).map Char.toLower = r.map Char.toLower := capWord_lower r
      have h3 : sizeRepl (capWord r) = capWord r := by
        rw [sizeRepl, if_neg (by rw [hlow]; exact hS)]
      have h4 : genderRepl (capWord r) = capWord (capWord r) := by
        rw [genderRepl, if_pos (by rw [hlow]; exact hG)]
      rw [h1, h2, h3, h4, capWord_capWord]
    · have h2 : genderRepl r = r := by rw [genderRepl, if_neg hG]
      rw [h1, h2, h1, h2]

/-- A leading three-letter run followed by a word boundary is one run:
the scanner rewrites it and continues after it. -/
theorem mapRuns_kitrun (f : List Char → List Char) (hf0 : f [] = [])
    (x y z : Char) (Z : List Char)
    (hwx : isWordChar x = true) (hwy : isWordChar y = true) (hwz : isWordChar z = true)
    (hb : boundaryAfter Z = true) :
    mapRuns f (x :: y :: z :: Z) = f [x, y, z] ++ mapRuns f Z := by
  unfold mapRuns
  simp only [mapRunsAux, hwx, hwy, hwz, if_true]
  cases Z with
  | nil => simp [mapRunsAux, hf0]
  | cons c cs =>
    have hc : isWordChar c = false := by simpa [boundaryAfter] using hb
    simp [mapRunsAux, hc, hf0]

/-- A list that does not start with whitespace is untouched by the left
trim. -/
theorem dropWhile_eq_self_of_headOk (l : List Char) (h : headOk l = true) :
    l.dropWhile jsSpace = l := by
  cases l with
  | nil => rfl
  | cons c cs =>
    simp only [headOk, Bool.not_eq_true'] at h
    simp [List.dropWhile_cons, h]

/-- A list with no whitespace at either end is a trim fixed point. -/
theorem jsTrimL_eq_self (l : List Char) (h1 : headOk l = true) (h2 : headOk l.reverse = true) :
    jsTrimL l = l := by
  unfold jsTrimL
  rw [dropWhile_eq_self_of_headOk l h1, dropWhile_eq_self_of_headOk _ h2, List.reverse_reverse]

/-- A list satisfying the collapse invariant is a collapse fixed point. -/
theorem collapseAux_eq_self_of_colFix :
    ∀ (l : List Char) (b : Bool), colFix b l = true → collapseAux b l = l := by
  intro l
  induction l with
  | nil => intro b _; rfl
  | cons c cs ih =>
    intro b h
    by_cases hs : jsSpace c
    · simp only [colFix, hs, if_true, Bool.and_eq_true, Bool.not_eq_true', beq_iff_eq] at h
      obtain ⟨⟨hb, hceq⟩, hrest⟩ := h
      subst hb
      subst hceq
      simp [collapseAux, hs, ih true hrest]
    · simp only [colFix, hs, Bool.false_eq_true, if_false] at h
      simp [collapseAux, hs, ih false h]

/-- The collapse output always satisfies the collapse invariant. -/
theorem colFix_collapseAux :
    ∀ (l : List Char) (b : Bool), colFix b (collapseAux b l) = true := by
  intro l
  induction l with
  | nil => intro b; rfl
  | cons c cs ih =>
    intro b
    by_cases hs : jsSpace c
    · cases b with
      | true => simpa [collapseAux, hs] using ih true
      | false =>
        have hsp : jsSpace ' ' = true := by decide
        simp [collapseAux, hs, colFix, hsp, ih true]
    · simpa [collapseAux, hs, colFix] using ih false

/-- The no-leading-whitespace test transfers along equal lower-cased
projections. -/
theorem headOk_eq_of_lower (l m : List Char) (h : l.map Char.toLower = m.map Char.toLower) :
    headOk l = headOk m := by
  cases l with
  | nil =>
    cases m with
    | nil => rfl
    | cons d ds => simp at h
  | cons c cs =>
    cases m with
    | nil => simp at h
    | cons d ds =>
      simp only [List.map_cons, List.cons.injEq] at h
      simp [headOk, jsSpace_eq_of_lower c d h.1]

/-- The collapse invariant transfers along equal lower-cased
projections. -/
theorem colFix_eq_of_lower :
    ∀ (l m : List Char), l.map Char.toLower = m.map Char.toLower →
      ∀ b, colFix b l = colFix b m := by
  intro l
  induction l with
  | nil =>
    intro m h b
    cases m with
    | nil => rfl
    | cons d ds => simp at h
  | cons c cs ih =>
    intro m h b
    cases m with
    | nil => simp at h
    | cons d ds =>
      simp only [List.map_cons, List.cons.injEq] at h
      have hsp := jsSpace_eq_of_lower c d h.1
      have hspace : (c == ' ') = (d == ' ') := by
        rw [Bool.eq_iff_iff]
        simp only [beq_iff_eq]
        exact eq_space_iff_of_lower c d h.1
      simp only [colFix, hsp, hspace]
      by_cases hs : jsSpace d
      · simp [hs, ih ds h.2 true]
      · simp [hs, ih ds h.2 false]

/-- A left trim never leaves leading whitespace. -/
theorem headOk_dropWhile (l : List Char) : headOk (l.dropWhile jsSpace) = true := by
  induction l with
  | nil => rfl
  | cons c cs ih =>
    by_cases hs : jsSpace c
    · simpa [List.dropWhile_cons, hs] using ih
    · simp [List.dropWhile_cons, hs, headOk]

/-- The trim output has no leading whitespace. -/
theorem headOk_jsTrimL (l : List Char) : headOk (jsTrimL l) = true := by
  unfold jsTrimL
  rcases hAe : l.dropWhile jsSpace with _ | ⟨c, cs⟩
  · simp [headOk]
  · have hc : jsSpace c = false := by
      have h0 := headOk_dropWhile l
      rw [hAe] at h0
      simpa [headOk] using h0
    rw [List.reverse_cons, List.dropWhile_append]
    by_cases he : (cs.reverse.dropWhile jsSpace).isEmpty
    · simp [he, List.dropWhile_cons, hc, headOk]
    · simp only [he, if_false, Bool.false_eq_true]
      simp [List.reverse_append, headOk, hc]

/-- The trim output has no trailing whitespace. -/
theorem revHeadOk_jsTrimL (l : List Char) : headOk (jsTrimL l).reverse = true := by
  unfold jsTrimL
  rw [List.reverse_reverse]
  exact headOk_dropWhile _

/-- Extending a list with a known last element in front keeps it. -/
theorem getLast?_cons_some (a : Char) (X : List Char) (z : Char) (h : X.getLast? = some z) :
    (a :: X).getLast? = some z := by
  cases X with
  | nil => simp at h
  | cons b bs => simpa using h

/-- The collapse keeps a non-whitespace last character. -/
theorem getLast?_collapseAux :
    ∀ (l : List Char) (b : Bool) (z : Char),
      l.getLast? = some z → jsSpace z = false → (collapseAux b l).getLast? = some z := by
  intro l
  induction l with
  | nil => intro b z h _; simp at h
  | cons c cs ih =>
    intro b z h hz
    cases cs with
    | nil =>
      simp only [List.getLast?_singleton, Option.some.injEq] at h
      subst h
      simp [collapseAux, hz]
    | cons d ds =>
      have h' : (d :: ds).getLast? = some z := by simpa using h
      by_cases hs : jsSpace c
      · cases b with
        | true => simpa [collapseAux, hs] using ih true z h' hz
        | false =>
          simp only [collapseAux, hs, if_true, Bool.true_eq_false, Bool.false_eq_true, if_false]
          exact getLast?_cons_some _ _ _ (ih true z h' hz)
      · simp only [collapseAux, hs, Bool.false_eq_true, if_false]
        exact getLast?_cons_some _ _ _ (ih false z h' hz)

/-- A character whose lower case is a word character is one. -/
theorem isWordChar_of_lower_eq (x c : Char) (h : x.toLower = c) (hc : isWordChar c = true) :
    isWordChar x = true := by
  rw [← isWordChar_toLower, h]
  exact hc

/-- The word boundary test transfers along equal lower-cased
projections. -/
theorem boundaryAfter_eq_of_lower (X W : List Char)
    (h : X.map Char.toLower = W.map Char.toLower) : boundaryAfter X = boundaryAfter W := by
  cases X with
  | nil =>
    cases W with
    | nil => rfl
    | cons d ds => simp at h
  | cons c cs =>
    cases W with
    | nil => simp at h
    | cons d ds =>
      simp only [List.map_cons, List.cons.injEq] at h
      simp [boundaryAfter, isWordChar_eq_of_lower c d h.1]

/-- The collapse invariant flag is irrelevant when the list does not
start with whitespace. -/
theorem colFix_true_eq_false (u : List Char) (h : headOk u = true) :
    colFix true u = colFix false u := by
  cases u with
  | nil => rfl
  | cons c cs =>
    have hc : jsSpace c = false := by simpa [headOk] using h
    simp [colFix, hc]

/-- The no-leading-whitespace test only looks at the left part of an
append when that part is nonempty. -/
theorem headOk_append_left (A B : List Char) (hA : A ≠ []) : headOk (A ++ B) = headOk A := by
  cases A with
  | nil => exact absurd rfl hA
  | cons c cs => simp [headOk]

/-- The collapse keeps the absence of trailing whitespace. -/
theorem revHeadOk_collapseL (t : List Char) (h : headOk t.reverse = true) :
    headOk (collapseL t).reverse = true := by
  rcases ht : t.getLast? with _ | z
  · have hnil : t = [] := by
      cases t with
      | nil => rfl
      | cons a as => simp [List.getLast?_eq_none_iff] at ht
    subst hnil
    rfl
  · have hz : jsSpace z = false := by
      cases hr : t.reverse with
      | nil =>
        exfalso
        have : t = [] := by simpa using congrArg List.reverse hr
        subst this
        simp at ht
      | cons a as =>
        have ha : t.reverse.head? = some a := by rw [hr]; rfl
        rw [List.head?_reverse, ht] at ha
        have haz : a = z := by simpa using ha.symm
        rw [hr] at h
        subst haz
        simpa [headOk] using h
    have hg : (collapseAux false t).getLast? = some z := getLast?_collapseAux t false z ht hz
    cases hcr : (collapseL t).reverse with
    | nil => rfl
    | cons a as =>
      have ha : (collapseL t).reverse.head? = some a := by rw [hcr]; rfl
      rw [List.head?_reverse] at ha
      have : (collapseL t).getLast? = some z := hg
      rw [this] at ha
      have haz : z = a := by simpa using ha
      subst haz
      simp [headOk, hz]

/-- Decomposition of a positive anchored kit test. -/
theorem startsKit_decomp (l : List Char) (h : startsKitB l = true) :
    ∃ x y z Z, l = x :: y :: z :: Z ∧ x.toLower = 'k' ∧ y.toLower = 'i' ∧ z.toLower = 't'
      ∧ boundaryAfter Z = true := by
  match l, h with
  | x :: y :: z :: Z, h =>
    simp only [startsKitB, Bool.and_eq_true, decide_eq_true_eq] at h
    exact ⟨x, y, z, Z, rfl, h.1.1.1, h.1.1.2, h.1.2, h.2⟩

/-- The composed replacement sends the empty run to itself. -/
theorem gRepl_nil : genderRepl (sizeRepl []) = [] := by decide

/-- The composed replacement preserves the lower-cased projection. -/
theorem gRepl_lower (r : List Char) :
    (genderRepl (sizeRepl r)).map Char.toLower = r.map Char.toLower := by
  rw [genderRepl_lower, sizeRepl_lower]

/-- The composed replacement keeps all-word runs all-word. -/
theorem gRepl_allword (r : List Char) (h : r.all isWordChar = true) :
    (genderRepl (sizeRepl r)).all isWordChar = true :=
  genderRepl_allword _ (sizeRepl_allword r h)

/-- The composed replacement leaves a kit run unchanged: kit is neither
a size token nor a gender token. -/
theorem gRepl_kit (x y z : Char)
    (hx : x.toLower = 'k') (hy : y.toLower = 'i') (hz : z.toLower = 't') :
    genderRepl (sizeRepl [x, y, z]) = [x, y, z] := by
  have hlow : [x, y, z].map Char.toLower = ['k', 'i', 't'] := by simp [hx, hy, hz]
  have h1 : sizeRepl [x, y, z] = [x, y, z] := by
    rw [sizeRepl, if_neg (by rw [hlow]; decide)]
  rw [h1, genderRepl, if_neg (by rw [hlow]; decide)]

/-- The full two-pass run map preserves the lower-cased projection. -/
theorem mapRuns_gRepl_lower (l : List Char) :
    (mapRuns (fun r => genderRepl (sizeRepl r)) l).map Char.toLower = l.map Char.toLower := by
  unfold mapRuns
  rw [mapRunsAux_lower _ gRepl_lower l []]
  rfl

/-- Core fixed-point argument: the output of the normalizer pipeline on
a string that starts with a kit run (either already present or freshly
prepended) and is whitespace-normal is itself a fixed point of the
pipeline, and is nonempty. -/
theorem normCore_fix (x y z : Char) (Z : List Char)
    (hx : x.toLower = 'k') (hy : y.toLower = 'i') (hz : z.toLower = 't')
    (hbz : boundaryAfter Z = true)
    (hcol : colFix false (x :: y :: z :: Z) = true)
    (hlast : headOk (x :: y :: z :: Z).reverse = true) :
    normCore (fixKitL (mapRuns genderRepl (mapRuns sizeRepl (x :: y :: z :: Z))))
      = fixKitL (mapRuns genderRepl (mapRuns sizeRepl (x :: y :: z :: Z)))
    ∧ fixKitL (mapRuns genderRepl (mapRuns sizeRepl (x :: y :: z :: Z))) ≠ [] := by
  have hwx : isWordChar x = true := isWordChar_of_lower_eq x 'k' hx (by decide)
  have hwy : isWordChar y = true := isWordChar_of_lower_eq y 'i' hy (by decide)
  have hwz : isWordChar z = true := isWordChar_of_lower_eq z 't' hz (by decide)
  have hcomp : mapRuns genderRepl (mapRuns sizeRepl (x :: y :: z :: Z))
      = mapRuns (fun r => genderRepl (sizeRepl r)) (x :: y :: z :: Z) :=
    mapRunsAux_comp sizeRepl genderRepl sizeRepl_allword (x :: y :: z :: Z) [] rfl
  have hkit : mapRuns (fun r => genderRepl (sizeRepl r)) (x :: y :: z :: Z)
      = genderRepl (sizeRepl [x, y, z]) ++ mapRuns (fun r => genderRepl (sizeRepl r)) Z :=
    mapRuns_kitrun (fun r => genderRepl (sizeRepl r)) gRepl_nil x y z Z hwx hwy hwz hbz
  have hMlow : (mapRuns (fun r => genderRepl (sizeRepl r)) Z).map Char.toLower
      = Z.map Char.toLower := mapRuns_gRepl_lower Z
  have hbM : boundaryAfter (mapRuns (fun r => genderRepl (sizeRepl r)) Z) = true := by
    rw [boundaryAfter_eq_of_lower _ Z hMlow]
    exact hbz
  have hY : mapRuns genderRepl (mapRuns sizeRepl (x :: y :: z :: Z))
      = x :: y :: z :: mapRuns (fun r => genderRepl (sizeRepl r)) Z := by
    rw [hcomp, hkit, gRepl_kit x y z hx hy hz]
    rfl
  have hskY : startsKitB (x :: y :: z :: mapRuns (fun r => genderRepl (sizeRepl r)) Z) = true := by
    simp [startsKitB, hx, hy, hz, hbM]
  have ho : fixKitL (mapRuns genderRepl (mapRuns sizeRepl (x :: y :: z :: Z)))
      = 'K' :: 'i' :: 't' :: mapRuns (fun r => genderRepl (sizeRepl r)) Z := by
    rw [hY]
    unfold fixKitL
    rw [if_pos hskY]
    rfl
  rw [ho]
  refine ⟨?_, by simp⟩
  have holow : ('K' :: 'i' :: 't' :: mapRuns (fun r => genderRepl (sizeRepl r)) Z).map Char.toLower
      = (x :: y :: z :: Z).map Char.toLower := by
    simp only [List.map_cons, hMlow, hx, hy, hz]
    rfl
  have hhead : headOk ('K' :: 'i' :: 't' :: mapRuns (fun r => genderRepl (sizeRepl r)) Z) = true := by
    simp [headOk]
    decide
  have hrev : headOk ('K' :: 'i' :: 't' :: mapRuns (fun r => genderRepl (sizeRepl r)) Z).reverse
      = true := by
    have hlr : ('K' :: 'i' :: 't' :: mapRuns (fun r => genderRepl (sizeRepl r)) Z).reverse.map Char.toLower
        = (x :: y :: z :: Z).reverse.map Char.toLower := by
      rw [List.map_reverse, List.map_reverse, holow]
    rw [headOk_eq_of_lower _ _ hlr]
    exact hlast
  have hcolo : colFix false ('K' :: 'i' :: 't' :: mapRuns (fun r => genderRepl (sizeRepl r)) Z)
      = true := by
    rw [colFix_eq_of_lower _ _ holow false]
    exact hcol
  have htrim : jsTrimL ('K' :: 'i' :: 't' :: mapRuns (fun r => genderRepl (sizeRepl r)) Z)
      = 'K' :: 'i' :: 't' :: mapRuns (fun r => genderRepl (sizeRepl r)) Z :=
    jsTrimL_eq_self _ hhead hrev
  have hcoll : collapseL ('K' :: 'i' :: 't' :: mapRuns (fun r => genderRepl (sizeRepl r)) Z)
      = 'K' :: 'i' :: 't' :: mapRuns (fun r => genderRepl (sizeRepl r)) Z :=
    collapseAux_eq_self_of_colFix _ false hcolo
  have hsko : startsKitB ('K' :: 'i' :: 't' :: mapRuns (fun r => genderRepl (sizeRepl r)) Z)
      = true := by
    simp [startsKitB, hbM]
  have hM2 : mapRuns (fun r => genderRepl (sizeRepl r))
        (mapRuns (fun r => genderRepl (sizeRepl r)) Z)
      = mapRuns (fun r => genderRepl (sizeRepl r)) Z := by
    have hcc : mapRuns (fun r => genderRepl (sizeRepl r))
          (mapRuns (fun r => genderRepl (sizeRepl r)) Z)
        = mapRuns (fun r => genderRepl (sizeRepl (genderRepl (sizeRepl r)))) Z :=
      mapRunsAux_comp _ _ gRepl_allword Z [] rfl
    rw [hcc]
    exact mapRunsAux_congr _ _ (fun r _ => gsComp_fix r) Z [] rfl
  have hcore2 : mapRuns genderRepl (mapRuns sizeRepl
        ('K' :: 'i' :: 't' :: mapRuns (fun r => genderRepl (sizeRepl r)) Z))
      = 'K' :: 'i' :: 't' :: mapRuns (fun r => genderRepl (sizeRepl r)) Z := by
    have hcomp2 : mapRuns genderRepl (mapRuns sizeRepl
          ('K' :: 'i' :: 't' :: mapRuns (fun r => genderRepl (sizeRepl r)) Z))
        = mapRuns (fun r => genderRepl (sizeRepl r))
            ('K' :: 'i' :: 't' :: mapRuns (fun r => genderRepl (sizeRepl r)) Z) :=
      mapRunsAux_comp sizeRepl genderRepl sizeRepl_allword _ [] rfl
    rw [hcomp2]
    rw [mapRuns_kitrun (fun r => genderRepl (sizeRepl r)) gRepl_nil 'K' 'i' 't' _
      (by decide) (by decide) (by decide) hbM]
    rw [gRepl_kit 'K' 'i' 't' (by decide) (by decide) (by decide)]
    rw [hM2]
    rfl
  show normCore ('K' :: 'i' :: 't' :: mapRuns (fun r => genderRepl (sizeRepl r)) Z)
      = 'K' :: 'i' :: 't' :: mapRuns (fun r => genderRepl (sizeRepl r)) Z
  simp only [normCore]
  rw [htrim, hcoll, if_pos hsko, hcore2]
  unfold fixKitL
  rw [if_pos hsko]
  rfl

/-- C9 amended: the normalizer is idempotent on every string that is
empty or whose trim is nonempty; only the truthy whitespace-only inputs
(whose normalization is the string Kit with a trailing space) escape
idempotence. -/
theorem normalizeKit_idempotent_off_blank (s : String) (h : jsTrim s ≠ "" ∨ s = "") :
    normalizeKit (normalizeKit s) = normalizeKit s := by
  rcases h with h | h
  · have hs : s ≠ "" := by
      intro he
      subst he
      exact h (by decide)
    have ht : jsTrimL s.data ≠ [] := by
      intro he
      apply h
      unfold jsTrim
      rw [he]
    have hth : headOk (jsTrimL s.data) = true := headOk_jsTrimL s.data
    have htr : headOk (jsTrimL s.data).reverse = true := revHeadOk_jsTrimL s.data
    obtain ⟨c, cs, hce⟩ : ∃ c cs, jsTrimL s.data = c :: cs := by
      rcases hj : jsTrimL s.data with _ | ⟨c, cs⟩
      · exact absurd hj ht
      · exact ⟨c, cs, rfl⟩
    have hc : jsSpace c = false := by
      rw [hce] at hth
      simpa [headOk] using hth
    have hu : collapseL (jsTrimL s.data) = c :: collapseAux false cs := by
      rw [hce]
      simp [collapseL, collapseAux, hc]
    have hune : collapseL (jsTrimL s.data) ≠ [] := by rw [hu]; simp
    have huh : headOk (collapseL (jsTrimL s.data)) = true := by
      rw [hu]
      simpa [headOk] using hc
    have hur : headOk (collapseL (jsTrimL s.data)).reverse = true :=
      revHeadOk_collapseL (jsTrimL s.data) htr
    have huc : colFix false (collapseL (jsTrimL s.data)) = true :=
      colFix_collapseAux (jsTrimL s.data) false
    have hnk : normalizeKit s = String.mk (normCore s.data) := by
      unfold normalizeKit
      rw [if_neg hs]
    by_cases hsk : startsKitB (collapseL (jsTrimL s.data)) = true
    · obtain ⟨x, y, z, Z, hdec, hx, hy, hz, hbz⟩ := startsKit_decomp _ hsk
      have hnc : normCore s.data
          = fixKitL (mapRuns genderRepl (mapRuns sizeRepl (x :: y :: z :: Z))) := by
        simp only [normCore]
        rw [if_pos hsk, hdec]
      have hfix := normCore_fix x y z Z hx hy hz hbz (hdec ▸ huc) (hdec ▸ hur)
      rw [hnk, hnc]
      have hne : String.mk (fixKitL (mapRuns genderRepl (mapRuns sizeRepl (x :: y :: z :: Z)))) ≠ "" := by
        intro he
        exact hfix.2 (by simpa using congrArg String.data he)
      unfold normalizeKit
      rw [if_neg hne]
      exact congrArg String.mk hfix.1
    · have hskf : startsKitB (collapseL (jsTrimL s.data)) = false := by
        simpa using hsk
      have hnc : normCore s.data
          = fixKitL (mapRuns genderRepl (mapRuns sizeRepl
              ('K' :: 'i' :: 't' :: ' ' :: collapseL (jsTrimL s.data)))) := by
        simp only [normCore]
        rw [if_neg (by simp [hskf])]
        rfl
      have hbzp : boundaryAfter (' ' :: collapseL (jsTrimL s.data)) = true := by
        have hw : isWordChar ' ' = false := by decide
        simp [boundaryAfter, hw]
      have hcolp : colFix false ('K' :: 'i' :: 't' :: ' ' :: collapseL (jsTrimL s.data)) = true := by
        have e1 : jsSpace 'K' = false := by decide
        have e2 : jsSpace 'i' = false := by decide
        have e3 : jsSpace 't' = false := by decide
        have e4 : jsSpace ' ' = true := by decide
        simp only [colFix, e1, e2, e3, e4, if_true, Bool.false_eq_true, if_false,
          Bool.not_false, Bool.true_and, beq_self_eq_true]
        rw [colFix_true_eq_false _ huh]
        exact huc
      have hlastp : headOk ('K' :: 'i' :: 't' :: ' ' :: collapseL (jsTrimL s.data)).reverse
          = true := by
        have hrevform : ('K' :: 'i' :: 't' :: ' ' :: collapseL (jsTrimL s.data)).reverse
            = (collapseL (jsTrimL s.data)).reverse ++ [' ', 't', 'i', 'K'] := by simp
        rw [hrevform, headOk_append_left _ _ (by simpa using hune)]
        exact hur
      have hfix := normCore_fix 'K' 'i' 't' (' ' :: collapseL (jsTrimL s.data))
        (by decide) (by decide) (by decide) hbzp hcolp hlastp
      rw [hnk, hnc]
      have hne : String.mk (fixKitL (mapRuns genderRepl (mapRuns sizeRepl
          ('K' :: 'i' :: 't' :: ' ' :: collapseL (jsTrimL s.data))))) ≠ "" := by
        intro he
        exact hfix.2 (by simpa using congrArg String.data he)
      unfold normalizeKit
      rw [if_neg hne]
      exact congrArg String.mk hfix.1
  · subst h
    decide

/-- C9 witness: the one-letter input g. -/
theorem normalizeKit_idempotent_off_blank_witness :
    (jsTrim "g" ≠ "" ∨ "g" = "") ∧ normalizeKit (normalizeKit "g") = normalizeKit "g" :=
  ⟨Or.inl (by decide), normalizeKit_idempotent_off_blank "g" (Or.inl (by decide))⟩
